import Mathlib

/-!
# Crude Flow Monitoring & Performance Analysis System — verification

Shallow embedding of the data-preparation pipeline and the forecasting step
of `src/main.py`:

* unit conversion at upload (lines 20–23),
* inclusive date-range filter (lines 36–38),
* calendar resampling with per-bucket means (lines 44–46),
* the post-resampling left merge on `Timestamp` and the constant label
  assignment (lines 47–48),
* the linear-regression forecast block (lines 61–78).

Timestamps are modelled as natural numbers (time units at the resampling
granularity); numeric cell values as rationals (the float computations are
exact at this granularity, matching the spec's "within floating-point
tolerance"); missing values (`NaN`) as `Option`; a pandas frame as a list of
rows.  Column-wise operations (resampling means) are modelled on one numeric
column at a time, which is exactly how pandas applies them.
-/

namespace CrudeFlow

/-! ## Rows and unit conversion (src/main.py lines 20–23) -/

/-- One row of the uploaded table before unit conversion: `Timestamp`,
`Pressure` (bar), `Temperature` (°C), `Flow_Rate` (BPD) and any additional
numeric columns (`extras`). -/
structure RawReading where
  ts : Nat
  pressure : ℚ
  temperature : ℚ
  flowRate : ℚ
  extras : List ℚ
deriving DecidableEq, Repr

/-- The bar→psi factor used on line 22: `df["Pressure"] * 14.5038`. -/
def psiPerBar : ℚ := 145038 / 10000

/-- Lines 22–23: `df["Pressure"] = df["Pressure"] * 14.5038` and
`df["Temperature"] = df["Temperature"] * 9/5 + 32`, all other columns
unchanged. -/
def convertUnits (r : RawReading) : RawReading :=
  { r with
    pressure := r.pressure * psiPerBar
    temperature := r.temperature * 9 / 5 + 32 }

/-- The conversion applied row-wise to the whole uploaded table, once,
immediately after ingestion. -/
def prepare (rows : List RawReading) : List RawReading :=
  rows.map convertUnits

/-! ## Date-range filter (src/main.py lines 36–38) -/

/-- The value of the date-range widget: either a single date or an
inclusive pair, mirroring the `isinstance(date_range, list) and
len(date_range) == 2` test on line 37. -/
inductive DateSel where
  | single (d : Nat)
  | pair (s e : Nat)
deriving DecidableEq, Repr

/-- Lines 37–38: keep rows with `start <= Timestamp <= end` when a pair is
selected; pass the table through unchanged otherwise. -/
def applyDateFilter : DateSel → List RawReading → List RawReading
  | .single _, rows => rows
  | .pair s e, rows => rows.filter (fun r => decide (s ≤ r.ts ∧ r.ts ≤ e))

end CrudeFlow

namespace CrudeFlow

/-- **C1.** For every row of the ingested table, the conversion sets
`Pressure` to the input pressure × 14.5038 and `Temperature` to the input
temperature × 9/5 + 32, leaving every other field unchanged, and it is
applied exactly once: every row a downstream operation (here the date
filter) reads is `convertUnits` of an *original* row. -/
theorem c1_unit_conversion (rows : List RawReading) :
    (prepare rows).length = rows.length ∧
    (∀ (i : Nat) (r : RawReading), rows[i]? = some r →
      (prepare rows)[i]? = some
        { r with
          pressure := r.pressure * (145038 / 10000 : ℚ)
          temperature := r.temperature * 9 / 5 + 32 }) ∧
    (∀ dr r', r' ∈ applyDateFilter dr (prepare rows) →
      ∃ r₀, r₀ ∈ rows ∧ r' = convertUnits r₀) := by
  refine ⟨by simp [prepare], ?_, ?_⟩
  · intro i r hi
    simp [prepare, List.getElem?_map, hi, convertUnits, psiPerBar]
  · intro dr r' hr'
    have hmem : r' ∈ prepare rows := by
      cases dr with
      | single d => exact hr'
      | pair s e => exact List.mem_of_mem_filter hr'
    obtain ⟨r₀, h₀, rfl⟩ := List.mem_map.mp hmem
    exact ⟨r₀, h₀, rfl⟩

/-- Closed witness for C1 at a concrete one-row table. -/
theorem c1_unit_conversion_witness :
    (prepare [⟨0, 1, 10, 100, [7]⟩]).length = 1 ∧
    (prepare [⟨0, 1, 10, 100, [7]⟩])[0]? =
      some ⟨0, 72519 / 5000, 50, 100, [7]⟩ ∧
    ∃ r₀, r₀ ∈ [(⟨0, 1, 10, 100, [7]⟩ : RawReading)] ∧
      (⟨0, 72519 / 5000, 50, 100, [7]⟩ : RawReading) = convertUnits r₀ := by
  have h := c1_unit_conversion [⟨0, 1, 10, 100, [7]⟩]
  refine ⟨h.1, ?_, ?_⟩
  · have := h.2.1 0 ⟨0, 1, 10, 100, [7]⟩ rfl
    norm_num at this
    simpa using this
  · refine h.2.2 (DateSel.pair 0 0) _ ?_
    have := h.2.1 0 ⟨0, 1, 10, 100, [7]⟩ rfl
    simp [applyDateFilter, prepare, convertUnits, psiPerBar]
    norm_num

/-! ## Resampler (src/main.py lines 44–48)

`df_numeric.set_index(df["Timestamp"]).resample(freq).mean()` applies the
mean column-wise, so one numeric column is modelled at a time: a column is a
list of `(Timestamp, value)` cells.  Timestamps are counted in time units at
the resampling granularity; the period selector maps to a bucket width `p ∈
{3, 4, 6, 12}` units (`"3M"`, `"4M"`, `"6M"`, `"A"`).  Pandas produces one
bin per period between the first and the last observation inclusive, labels
each bin by its right edge, keeps empty bins as `NaN` rows, and averages the
cells falling in each bin. -/

/-- The period bucket a timestamp falls into. -/
def bucketOf (p t : Nat) : Nat := t / p

/-- The right-edge label pandas gives bucket `k`: the last time unit of the
bucket. -/
def bucketLabel (p k : Nat) : Nat := (k + 1) * p - 1

/-- Least timestamp of a (nonempty) column; 0 for the empty column. -/
def minTs (rows : List (Nat × ℚ)) : Nat :=
  match rows with
  | [] => 0
  | r :: rs => rs.foldl (fun m x => min m x.1) r.1

/-- Greatest timestamp of a (nonempty) column; 0 for the empty column. -/
def maxTs (rows : List (Nat × ℚ)) : Nat :=
  match rows with
  | [] => 0
  | r :: rs => rs.foldl (fun m x => max m x.1) r.1

/-- The cells whose timestamp falls in bucket `k`. -/
def bucketMembers (p k : Nat) (rows : List (Nat × ℚ)) : List (Nat × ℚ) :=
  rows.filter (fun r => decide (bucketOf p r.1 = k))

/-- Arithmetic mean of a bucket's cells, `none` (`NaN`) for an empty
bucket. -/
def meanOpt (xs : List ℚ) : Option ℚ :=
  if xs = [] then none else some (xs.sum / xs.length)

/-- Line 46: `resample(selected_comparison).mean()` on one numeric column —
one row per bucket from the bucket of the least timestamp to the bucket of
the greatest, labelled by the bucket's right edge, holding the bucket
mean. -/
def resampleMean (p : Nat) (rows : List (Nat × ℚ)) : List (Nat × Option ℚ) :=
  if rows = [] then []
  else
    (List.range (bucketOf p (maxTs rows) - bucketOf p (minTs rows) + 1)).map
      (fun i =>
        (bucketLabel p (bucketOf p (minTs rows) + i),
         meanOpt ((bucketMembers p (bucketOf p (minTs rows) + i) rows).map
           Prod.snd)))

/-- How many original timestamps equal a merge key. -/
def countMatches (ts : List Nat) (k : Nat) : Nat :=
  (ts.filter (fun t => decide (t = k))).length

/-- Line 47: `df_resampled.merge(df["Timestamp"], on="Timestamp",
how="left")`.  The right side carries only the key column, so each left row
reappears once per matching original timestamp, and once with no extra data
when nothing matches. -/
def mergeOnTs (resampled : List (Nat × Option ℚ)) (ts : List Nat) :
    List (Nat × Option ℚ) :=
  resampled.flatMap (fun b => List.replicate (max 1 (countMatches ts b.1)) b)

/-- Line 48: `df["Data_Entry_Name"] = data_entry_name` — the label column is
assigned as a constant over every row of the merged table (a scalar
assignment can produce no nulls). -/
def attachLabel (name : String) (rows : List (Nat × Option ℚ)) :
    List (Nat × Option ℚ × Option String) :=
  rows.map (fun r => (r.1, r.2, some name))

/-- Accumulator bound for the fold computing `minTs`. -/
theorem foldl_min_le_init (l : List (Nat × ℚ)) (a : Nat) :
    l.foldl (fun m x => min m x.1) a ≤ a := by
  induction l generalizing a with
  | nil => exact le_rfl
  | cons hd tl ih => exact le_trans (ih (min a hd.1)) (min_le_left _ _)

/-- The fold computing `minTs` is below every element it has seen. -/
theorem foldl_min_le_mem (l : List (Nat × ℚ)) (a : Nat) (x : Nat × ℚ)
    (hx : x ∈ l) : l.foldl (fun m x => min m x.1) a ≤ x.1 := by
  induction l generalizing a with
  | nil => cases hx
  | cons hd tl ih =>
    rcases List.mem_cons.mp hx with h | h
    · subst h
      exact le_trans (foldl_min_le_init tl _) (min_le_right a x.1)
    · exact ih _ h

/-- Accumulator bound for the fold computing `maxTs`. -/
theorem le_foldl_max_init (l : List (Nat × ℚ)) (a : Nat) :
    a ≤ l.foldl (fun m x => max m x.1) a := by
  induction l generalizing a with
  | nil => exact le_rfl
  | cons hd tl ih => exact le_trans (le_max_left _ _) (ih (max a hd.1))

/-- The fold computing `maxTs` is above every element it has seen. -/
theorem le_foldl_max_mem (l : List (Nat × ℚ)) (a : Nat) (x : Nat × ℚ)
    (hx : x ∈ l) : x.1 ≤ l.foldl (fun m x => max m x.1) a := by
  induction l generalizing a with
  | nil => cases hx
  | cons hd tl ih =>
    rcases List.mem_cons.mp hx with h | h
    · subst h
      exact le_trans (le_max_right a x.1) (le_foldl_max_init tl _)
    · exact ih _ h

/-- Every timestamp of the column lies in `[minTs, maxTs]`. -/
theorem minTs_le_maxTs (rows : List (Nat × ℚ)) (r : Nat × ℚ) (hr : r ∈ rows) :
    minTs rows ≤ r.1 ∧ r.1 ≤ maxTs rows := by
  cases rows with
  | nil => cases hr
  | cons hd tl =>
    constructor
    · rcases List.mem_cons.mp hr with h | h
      · subst h
        exact foldl_min_le_init tl _
      · exact foldl_min_le_mem tl _ r h
    · rcases List.mem_cons.mp hr with h | h
      · subst h
        exact le_foldl_max_init tl _
      · exact le_foldl_max_mem tl _ r h

/-- **C2.** For every non-empty column and every period selector in
{3, 4, 6, 12} months, the resampled output has exactly one row per calendar
bucket spanning `[minTs, maxTs]` at that granularity (so every input row's
bucket lies in that span), each bucket holding the arithmetic mean of the
cells falling in it, and empty buckets appearing as `none` (`NaN`) rows
rather than being dropped. -/
theorem c2_resampler_buckets (p : Nat) (_hp : p = 3 ∨ p = 4 ∨ p = 6 ∨ p = 12)
    (rows : List (Nat × ℚ)) (hne : rows ≠ []) :
    (resampleMean p rows).length
      = bucketOf p (maxTs rows) - bucketOf p (minTs rows) + 1 ∧
    (∀ r ∈ rows, bucketOf p (minTs rows) ≤ bucketOf p r.1 ∧
      bucketOf p r.1 ≤ bucketOf p (maxTs rows)) ∧
    (∀ i : Nat, i < (resampleMean p rows).length →
      (resampleMean p rows)[i]? = some
        (bucketLabel p (bucketOf p (minTs rows) + i),
         if bucketMembers p (bucketOf p (minTs rows) + i) rows = [] then none
         else some
           (((bucketMembers p (bucketOf p (minTs rows) + i) rows).map
               Prod.snd).sum /
             (bucketMembers p (bucketOf p (minTs rows) + i) rows).length))) := by
  refine ⟨by simp [resampleMean, hne], ?_, ?_⟩
  · intro r hr
    obtain ⟨h1, h2⟩ := minTs_le_maxTs rows r hr
    exact ⟨Nat.div_le_div_right h1, Nat.div_le_div_right h2⟩
  · intro i hi
    have hlen : i < bucketOf p (maxTs rows) - bucketOf p (minTs rows) + 1 := by
      simpa [resampleMean, hne] using hi
    simp [resampleMean, hne, List.getElem?_range hlen, meanOpt,
      List.map_eq_nil_iff]

/-- Closed witness for C2: two cells seven units apart at period 3 give
three buckets, the middle one empty (`none`), labelled by right edges. -/
theorem c2_resampler_buckets_witness :
    (resampleMean 3 [(0, (1 : ℚ)), (7, 2)]).length = 3 ∧
    (bucketOf 3 (minTs [(0, (1 : ℚ)), (7, 2)]) ≤ bucketOf 3 0 ∧
      bucketOf 3 0 ≤ bucketOf 3 (maxTs [(0, (1 : ℚ)), (7, 2)])) ∧
    (resampleMean 3 [(0, (1 : ℚ)), (7, 2)])[1]? = some (5, none) := by
  have h := c2_resampler_buckets 3 (Or.inl rfl) [(0, (1 : ℚ)), (7, 2)]
    (by decide)
  refine ⟨?_, h.2.1 (0, 1) (by decide), ?_⟩
  · rw [h.1]
    decide
  · have h3 := h.2.2 1 (by rw [h.1]; decide)
    rw [h3]
    decide

/-- Count of a resampled row in the merged table, bucket by bucket. -/
theorem count_mergeOnTs (rs : List (Nat × Option ℚ)) (ts : List Nat)
    (b : Nat × Option ℚ) :
    (mergeOnTs rs ts).count b =
      (rs.map (fun c => if c = b then max 1 (countMatches ts c.1) else 0)).sum := by
  induction rs with
  | nil => rfl
  | cons hd tl ih =>
    have hcons : mergeOnTs (hd :: tl) ts =
        List.replicate (max 1 (countMatches ts hd.1)) hd ++ mergeOnTs tl ts :=
      rfl
    rw [hcons, List.count_append, ih, List.map_cons, List.sum_cons,
      List.count_replicate]
    by_cases hb : hd = b
    · simp [hb]
    · simp [hb]

/-- A map that vanishes away from `b` sums to its value at `b` on a
duplicate-free list containing `b`. -/
theorem sum_map_ite_eq (rs : List (Nat × Option ℚ)) (b : Nat × Option ℚ)
    (f : Nat × Option ℚ → Nat) (hnd : rs.Nodup) (hb : b ∈ rs) :
    (rs.map (fun c => if c = b then f c else 0)).sum = f b := by
  induction rs with
  | nil => cases hb
  | cons hd tl ih =>
    obtain ⟨hhd, htl⟩ := List.nodup_cons.mp hnd
    rcases List.mem_cons.mp hb with h | h
    · subst h
      simp only [List.map_cons, List.sum_cons]
      have hz : (tl.map (fun c => if c = b then f c else 0)).sum = 0 := by
        refine List.sum_eq_zero ?_
        intro x hx
        obtain ⟨c, hc, rfl⟩ := List.mem_map.mp hx
        have hcb : c ≠ b := fun e => hhd (e ▸ hc)
        simp [hcb]
      simp [hz]
    · have hne : hd ≠ b := fun e => hhd (e ▸ h)
      simp only [List.map_cons, List.sum_cons, if_neg hne]
      simpa using ih htl h

/-- The resampled table has pairwise distinct rows: bucket labels strictly
increase with the bucket index. -/
theorem resampleMean_nodup (p : Nat) (hp : 0 < p) (rows : List (Nat × ℚ)) :
    (resampleMean p rows).Nodup := by
  unfold resampleMean
  split
  · exact List.nodup_nil
  · refine List.Nodup.map ?_ (List.nodup_range _)
    intro i j hij
    have h1 : bucketLabel p (bucketOf p (minTs rows) + i) =
        bucketLabel p (bucketOf p (minTs rows) + j) := congrArg Prod.fst hij
    unfold bucketLabel at h1
    have hx : 1 ≤ (bucketOf p (minTs rows) + i + 1) * p :=
      Nat.mul_pos (by omega) hp
    have hy : 1 ≤ (bucketOf p (minTs rows) + j + 1) * p :=
      Nat.mul_pos (by omega) hp
    have h2 : (bucketOf p (minTs rows) + i + 1) * p =
        (bucketOf p (minTs rows) + j + 1) * p := by omega
    have h3 := Nat.eq_of_mul_eq_mul_right hp h2
    omega

/-- A list of positive naturals sums to at least its length. -/
theorem length_le_sum_ones (l : List Nat) :
    (∀ x ∈ l, 1 ≤ x) → l.length ≤ l.sum := by
  induction l with
  | nil => intro _; simp
  | cons hd tl ih =>
    intro h
    have hhd := h hd (List.mem_cons_self hd tl)
    have htl := ih (fun x hx => h x (List.mem_cons_of_mem hd hx))
    simp only [List.length_cons, List.sum_cons]
    omega

/-- A list of positive naturals with an element `≥ 2` sums above its
length. -/
theorem length_lt_sum_of_two (l : List Nat) :
    (∀ x ∈ l, 1 ≤ x) → (∃ x ∈ l, 2 ≤ x) → l.length < l.sum := by
  induction l with
  | nil =>
    intro _ h2
    obtain ⟨x, hx, _⟩ := h2
    cases hx
  | cons hd tl ih =>
    intro h1 h2
    obtain ⟨x, hx, h2x⟩ := h2
    rcases List.mem_cons.mp hx with h | h
    · rw [h] at h2x
      have htl := length_le_sum_ones tl
        (fun y hy => h1 y (List.mem_cons_of_mem hd hy))
      simp only [List.length_cons, List.sum_cons]
      omega
    · have hlt := ih (fun y hy => h1 y (List.mem_cons_of_mem hd hy)) ⟨x, h, h2x⟩
      have hhd := h1 hd (List.mem_cons_self hd tl)
      simp only [List.length_cons, List.sum_cons]
      omega

/-- **C10.** The post-resampling left merge on `Timestamp` duplicates each
resampled row `max 1 k` times, where `k` counts the original rows whose
timestamp equals that bucket label; as soon as some bucket label matches two
or more original rows the merged table is strictly longer than the
resampled one. -/
theorem c10_merge_row_multiplicity (p : Nat)
    (hp : p = 3 ∨ p = 4 ∨ p = 6 ∨ p = 12) (rows : List (Nat × ℚ)) :
    (∀ b ∈ resampleMean p rows,
      (mergeOnTs (resampleMean p rows) (rows.map Prod.fst)).count b =
        max 1 (countMatches (rows.map Prod.fst) b.1)) ∧
    ((∃ b ∈ resampleMean p rows,
        2 ≤ countMatches (rows.map Prod.fst) b.1) →
      (resampleMean p rows).length <
        (mergeOnTs (resampleMean p rows) (rows.map Prod.fst)).length) := by
  have hp' : 0 < p := by rcases hp with h | h | h | h <;> omega
  constructor
  · intro b hb
    rw [count_mergeOnTs]
    exact sum_map_ite_eq _ b
      (fun c => max 1 (countMatches (rows.map Prod.fst) c.1))
      (resampleMean_nodup p hp' rows) hb
  · rintro ⟨b, hb, h2⟩
    have hlen : (mergeOnTs (resampleMean p rows) (rows.map Prod.fst)).length =
        ((resampleMean p rows).map
          (fun c => max 1 (countMatches (rows.map Prod.fst) c.1))).sum := by
      rw [mergeOnTs, List.length_flatMap]
      congr 1
      simp [Function.comp_def, List.length_replicate]
    rw [hlen]
    have := length_lt_sum_of_two
      ((resampleMean p rows).map
        (fun c => max 1 (countMatches (rows.map Prod.fst) c.1)))
      (by
        intro x hx
        obtain ⟨c, _, rfl⟩ := List.mem_map.mp hx
        omega)
      ⟨max 1 (countMatches (rows.map Prod.fst) b.1),
        List.mem_map_of_mem _ hb, by omega⟩
    simpa using this

/-- Concrete evaluation: two cells sharing timestamp 2 at period 3
resample to the single bucket row `(2, some 2)`. -/
theorem resampleMean_eval_pair :
    resampleMean 3 [(2, (1 : ℚ)), (2, 3)] = [(2, some 2)] := by
  norm_num [resampleMean, minTs, maxTs, bucketOf, bucketLabel, bucketMembers,
    meanOpt, List.range_succ]
  decide

/-- Closed witness for C10: two cells sharing timestamp 2 at period 3 give
one bucket labelled 2, which then matches both original rows, so the merge
doubles the row. -/
theorem c10_merge_row_multiplicity_witness :
    (mergeOnTs (resampleMean 3 [(2, (1 : ℚ)), (2, 3)])
        ([(2, (1 : ℚ)), (2, 3)].map Prod.fst)).count (2, some (2 : ℚ)) =
      max 1 (countMatches ([(2, (1 : ℚ)), (2, 3)].map Prod.fst) 2) ∧
    (resampleMean 3 [(2, (1 : ℚ)), (2, 3)]).length <
      (mergeOnTs (resampleMean 3 [(2, (1 : ℚ)), (2, 3)])
        ([(2, (1 : ℚ)), (2, 3)].map Prod.fst)).length := by
  have h := c10_merge_row_multiplicity 3 (Or.inl rfl) [(2, (1 : ℚ)), (2, 3)]
  have hm : (2, some (2 : ℚ)) ∈ resampleMean 3 [(2, (1 : ℚ)), (2, 3)] := by
    rw [resampleMean_eval_pair]
    exact List.mem_singleton.mpr rfl
  exact ⟨h.1 (2, some (2 : ℚ)) hm, h.2 ⟨(2, some (2 : ℚ)), hm, by decide⟩⟩

/-- Concrete evaluation: one cell at timestamp 0, period 3, merged against
its own timestamp column and labelled — the single output row keeps the
unmatched bucket label 2 and carries the constant entry label. -/
theorem mergeLabel_eval_single :
    attachLabel "A" (mergeOnTs (resampleMean 3 [(0, (4 : ℚ))]) [0]) =
      [(2, some (4 : ℚ), some "A")] := by
  norm_num [attachLabel, mergeOnTs, resampleMean, minTs, maxTs, bucketOf,
    bucketLabel, bucketMembers, meanOpt, countMatches, List.range_succ,
    List.replicate]

/-- **C6 counterexample.** At period 3 a single cell at timestamp 0 yields
the bucket label 2, which matches no original row, yet the output row's
label is the entry name, not null: the label is a constant assignment, not
the result of the join. -/
theorem c6_label_counterexample :
    attachLabel "A" (mergeOnTs (resampleMean 3 [(0, (4 : ℚ))]) [0]) =
      [(2, some (4 : ℚ), some "A")] ∧
    (2 : Nat) ∉ ([0] : List Nat) :=
  ⟨mergeLabel_eval_single, by decide⟩

/-- **C6 (amended).** The resampled rows are left-joined on timestamp
against the original `Timestamp` column (a join that carries no label), and
the label column is then assigned as a constant, so *every* output row —
whether or not its bucket timestamp matches an original row — carries the
session's entry label; no null labels arise. -/
theorem c6_label_constant (name : String) (rs : List (Nat × Option ℚ))
    (ts : List Nat) (row : Nat × Option ℚ × Option String)
    (hrow : row ∈ attachLabel name (mergeOnTs rs ts)) :
    row.2.2 = some name := by
  obtain ⟨r, _, rfl⟩ := List.mem_map.mp hrow
  rfl

/-- Closed witness for the amended C6 at a concrete unmatched bucket. -/
theorem c6_label_constant_witness :
    ((2, some (4 : ℚ), some "A") : Nat × Option ℚ × Option String).2.2 =
      some "A" :=
  c6_label_constant "A" (resampleMean 3 [(0, (4 : ℚ))]) [0]
    (2, some (4 : ℚ), some "A")
    (by rw [mergeLabel_eval_single]; exact List.mem_singleton.mpr rfl)

/-! ## Forecast block (src/main.py lines 61–78)

`LinearRegression().fit(X, y)` with an intercept centers the data and
solves the least-squares problem by `lstsq`: when the centered Gram matrix
of the two features is invertible the unique least-squares solution is
returned; when it is singular, `lstsq` returns the minimum-norm solution
(the Moore–Penrose pseudoinverse applied to the centered data); the
intercept is `mean(y) − coef · mean(X)`.  With the scaled moments
`sPP = n·Σp² − (Σp)²` etc. this gives exactly the case split in `olsCoef`
below (for a 2×2 symmetric PSD matrix `S` of rank one, `S⁺ = S / (tr S)²`).
`fit` raises on an empty design matrix but accepts a single sample. -/

/-- One complete regression row (`df_ml`): `Pressure`, `Temperature`,
`Flow_Rate`, all present. -/
structure MLRow where
  p : ℚ
  t : ℚ
  f : ℚ
deriving DecidableEq, Repr

/-- Row count as a rational. -/
def nQ (rows : List MLRow) : ℚ := rows.length

/-- Σ `Pressure`. -/
def sumP (rows : List MLRow) : ℚ := (rows.map MLRow.p).sum

/-- Σ `Temperature`. -/
def sumT (rows : List MLRow) : ℚ := (rows.map MLRow.t).sum

/-- Σ `Flow_Rate`. -/
def sumF (rows : List MLRow) : ℚ := (rows.map MLRow.f).sum

/-- Σ `Pressure²`. -/
def sumPP (rows : List MLRow) : ℚ := (rows.map (fun r => r.p * r.p)).sum

/-- Σ `Temperature²`. -/
def sumTT (rows : List MLRow) : ℚ := (rows.map (fun r => r.t * r.t)).sum

/-- Σ `Pressure·Temperature`. -/
def sumPT (rows : List MLRow) : ℚ := (rows.map (fun r => r.p * r.t)).sum

/-- Σ `Pressure·Flow_Rate`. -/
def sumPF (rows : List MLRow) : ℚ := (rows.map (fun r => r.p * r.f)).sum

/-- Σ `Temperature·Flow_Rate`. -/
def sumTF (rows : List MLRow) : ℚ := (rows.map (fun r => r.t * r.f)).sum

/-- `n²` times the centered variance of `Pressure`. -/
def sPP (rows : List MLRow) : ℚ := nQ rows * sumPP rows - sumP rows * sumP rows

/-- `n²` times the centered variance of `Temperature`. -/
def sTT (rows : List MLRow) : ℚ := nQ rows * sumTT rows - sumT rows * sumT rows

/-- `n²` times the centered covariance of the two features. -/
def sPT (rows : List MLRow) : ℚ := nQ rows * sumPT rows - sumP rows * sumT rows

/-- `n²` times the centered covariance of `Pressure` with `Flow_Rate`. -/
def sPF (rows : List MLRow) : ℚ := nQ rows * sumPF rows - sumP rows * sumF rows

/-- `n²` times the centered covariance of `Temperature` with
`Flow_Rate`. -/
def sTF (rows : List MLRow) : ℚ := nQ rows * sumTF rows - sumT rows * sumF rows

/-- Determinant of the scaled centered Gram matrix
`S = [[sPP, sPT], [sPT, sTT]]`. -/
def detS (rows : List MLRow) : ℚ := sPP rows * sTT rows - sPT rows * sPT rows

/-- Trace of the scaled centered Gram matrix. -/
def trS (rows : List MLRow) : ℚ := sPP rows + sTT rows

/-- The two slope coefficients of `model.fit` (line 68): the unique
least-squares solution `S⁻¹·(sPF, sTF)` when `S` is invertible, the
minimum-norm solution `S⁺·(sPF, sTF) = S·(sPF, sTF) / (tr S)²` when `S` has
rank one, and `(0, 0)` when the centered design is zero. -/
def olsCoef (rows : List MLRow) : ℚ × ℚ :=
  if detS rows = 0 then
    if trS rows = 0 then (0, 0)
    else
      ((sPP rows * sPF rows + sPT rows * sTF rows) / (trS rows * trS rows),
       (sPT rows * sPF rows + sTT rows * sTF rows) / (trS rows * trS rows))
  else
    ((sTT rows * sPF rows - sPT rows * sTF rows) / detS rows,
     (sPP rows * sTF rows - sPT rows * sPF rows) / detS rows)

/-- The fitted model `(coef_pressure, coef_temp, intercept)` of lines
68–70; the intercept is `mean(y) − coef · mean(X)`. -/
def olsFit (rows : List MLRow) : ℚ × ℚ × ℚ :=
  ((olsCoef rows).1, (olsCoef rows).2,
   (sumF rows - (olsCoef rows).1 * sumP rows - (olsCoef rows).2 * sumT rows) /
     nQ rows)

/-- `model.predict` at one feature point (line 75). -/
def predictFlow (m : ℚ × ℚ × ℚ) (pr te : ℚ) : ℚ :=
  m.1 * pr + m.2.1 * te + m.2.2

/-- Least element of a rational column (`X["Pressure"].min()`); 0 for the
empty column. -/
def qMin : List ℚ → ℚ
  | [] => 0
  | x :: xs => xs.foldl min x

/-- Greatest element of a rational column (`X["Pressure"].max()`); 0 for
the empty column. -/
def qMax : List ℚ → ℚ
  | [] => 0
  | x :: xs => xs.foldl max x

/-- `np.linspace(a, b, n)` (lines 72–73): `n` evenly spaced points from `a`
to `b` inclusive. -/
def linspace (a b : ℚ) (n : Nat) : List ℚ :=
  (List.range n).map (fun i : Nat => a + (b - a) * (i : ℚ) / ((n : ℚ) - 1))

/-- Lines 71–76: pair the two independently generated 30-point linspaces
positionally, evaluate the fitted model at each pair, and label the results
with day indices 1..30 (`range(1, 31)`). -/
def forecast30 (rows : List MLRow) : List (Nat × ℚ) :=
  let m := olsFit rows
  let ps := linspace (qMin (rows.map MLRow.p)) (qMax (rows.map MLRow.p)) 30
  let ts := linspace (qMin (rows.map MLRow.t)) (qMax (rows.map MLRow.t)) 30
  ((List.range 30).zip (ps.zip ts)).map
    (fun z => (z.1 + 1, predictFlow m z.2.1 z.2.2))

/-- One row as the forecast block sees it: the three needed columns, each
possibly `NaN` (`none`). -/
structure RawMLRow where
  p : Option ℚ
  t : Option ℚ
  f : Option ℚ
deriving DecidableEq, Repr

/-- Line 64: `df.dropna(subset=["Flow_Rate", "Pressure", "Temperature"])` —
keep the rows where all three fields are present. -/
def completeRows (rows : List RawMLRow) : List MLRow :=
  rows.filterMap (fun r =>
    match r.f, r.p, r.t with
    | some fv, some pv, some tv => some ⟨pv, tv, fv⟩
    | _, _, _ => none)

/-- Outcome of the forecast step for the session: the guard can skip it,
an uncaught exception crashes the script run, or a forecast is produced. -/
inductive StepResult where
  | skipped
  | crashed (msg : String)
  | produced (fc : List (Nat × ℚ))
deriving DecidableEq, Repr

/-- Lines 63–76 of `src/main.py`.  The guard on line 63 checks only that
`Pressure` and `Temperature` are column names; `dropna` on line 64 raises
`KeyError` when its subset names a column that does not exist
(`Flow_Rate`); `model.fit` on line 68 raises `ValueError` on an empty
design matrix and fits otherwise (a single sample is accepted). -/
def forecastStep (hasP hasT hasF : Bool) (rows : List RawMLRow) :
    StepResult :=
  if hasP && hasT then
    if hasF then
      if (completeRows rows).length = 0 then
        .crashed "ValueError: 0 samples"
      else
        .produced (forecast30 (completeRows rows))
    else
      .crashed "KeyError: Flow_Rate"
  else
    .skipped

/-- On a dataset lying exactly on the plane `f = 2p + 3t + 5`, every moment
sum of `Flow_Rate` decomposes through the feature moments. -/
theorem sums_of_linear (rows : List MLRow)
    (hlin : ∀ r ∈ rows, r.f = 2 * r.p + 3 * r.t + 5) :
    sumF rows = 2 * sumP rows + 3 * sumT rows + 5 * nQ rows ∧
    sumPF rows = 2 * sumPP rows + 3 * sumPT rows + 5 * sumP rows ∧
    sumTF rows = 2 * sumPT rows + 3 * sumTT rows + 5 * sumT rows := by
  induction rows with
  | nil => norm_num [sumF, sumP, sumT, nQ, sumPF, sumPP, sumPT, sumTF, sumTT]
  | cons hd tl ih =>
    have hhd := hlin hd (List.mem_cons_self hd tl)
    obtain ⟨h1, h2, h3⟩ := ih (fun r hr => hlin r (List.mem_cons_of_mem hd hr))
    refine ⟨?_, ?_, ?_⟩
    · simp only [sumF, sumP, sumT, nQ, List.map_cons, List.sum_cons,
        List.length_cons] at *
      push_cast
      linear_combination hhd + h1
    · simp only [sumPF, sumPP, sumPT, sumP, List.map_cons, List.sum_cons] at *
      linear_combination hd.p * hhd + h2
    · simp only [sumTF, sumPT, sumTT, sumT, List.map_cons, List.sum_cons] at *
      linear_combination hd.t * hhd + h3

/-- The centered covariances with `Flow_Rate` decompose through the
centered feature moments on an exactly linear dataset. -/
theorem sS_of_linear (rows : List MLRow)
    (hlin : ∀ r ∈ rows, r.f = 2 * r.p + 3 * r.t + 5) :
    sPF rows = 2 * sPP rows + 3 * sPT rows ∧
    sTF rows = 2 * sPT rows + 3 * sTT rows := by
  obtain ⟨h1, h2, h3⟩ := sums_of_linear rows hlin
  constructor
  · simp only [sPF, sPP, sPT]
    linear_combination nQ rows * h2 - sumP rows * h1
  · simp only [sTF, sPT, sTT]
    linear_combination nQ rows * h3 - sumT rows * h1

/-- The scaled centered Gram determinant of the empty dataset vanishes. -/
theorem detS_nil : detS ([] : List MLRow) = 0 := by
  norm_num [detS, sPP, sTT, sPT, nQ, sumPP, sumTT, sumPT, sumP, sumT]

/-- **C9 (amended).** Fitting on a noise-free dataset satisfying
`Flow_Rate = 2·Pressure + 3·Temperature + 5` whose centered feature design
has full rank (nonzero centered Gram determinant — three affinely
independent feature rows) recovers the coefficients (2, 3) and intercept 5
exactly, so the prediction at every feature point, the 30 evaluation
points included, equals `2·Pressure + 3·Temperature + 5`. -/
theorem c9_exact_recovery (rows : List MLRow)
    (hlin : ∀ r ∈ rows, r.f = 2 * r.p + 3 * r.t + 5)
    (hdet : detS rows ≠ 0) :
    olsFit rows = (2, 3, 5) ∧
    ∀ pr te : ℚ, predictFlow (olsFit rows) pr te = 2 * pr + 3 * te + 5 := by
  have hne : rows ≠ [] := by
    rintro rfl
    exact hdet detS_nil
  have hn0 : nQ rows ≠ 0 := by
    simp only [nQ, ne_eq, Nat.cast_eq_zero, List.length_eq_zero]
    exact hne
  obtain ⟨h1, _, _⟩ := sums_of_linear rows hlin
  obtain ⟨hPF, hTF⟩ := sS_of_linear rows hlin
  have hcoef : olsCoef rows = (2, 3) := by
    rw [olsCoef, if_neg hdet]
    have ha : (sTT rows * sPF rows - sPT rows * sTF rows) / detS rows = 2 := by
      rw [div_eq_iff hdet, detS]
      linear_combination sTT rows * hPF - sPT rows * hTF
    have hb : (sPP rows * sTF rows - sPT rows * sPF rows) / detS rows = 3 := by
      rw [div_eq_iff hdet, detS]
      linear_combination sPP rows * hTF - sPT rows * hPF
    rw [ha, hb]
  have hfit : olsFit rows = (2, 3, 5) := by
    rw [olsFit, hcoef]
    have hc : (sumF rows - 2 * sumP rows - 3 * sumT rows) / nQ rows = 5 := by
      rw [div_eq_iff hn0]
      linear_combination h1
    simpa using hc
  refine ⟨hfit, ?_⟩
  intro pr te
  rw [hfit, predictFlow]

/-- Closed witness for the amended C9: three affinely independent rows on
the plane recover (2, 3, 5), and the model predicts the plane at (4, 6). -/
theorem c9_exact_recovery_witness :
    olsFit [MLRow.mk 0 0 5, MLRow.mk 1 0 7, MLRow.mk 0 1 8] = (2, 3, 5) ∧
    predictFlow (olsFit [MLRow.mk 0 0 5, MLRow.mk 1 0 7, MLRow.mk 0 1 8])
      4 6 = 2 * 4 + 3 * 6 + 5 := by
  have h := c9_exact_recovery [MLRow.mk 0 0 5, MLRow.mk 1 0 7, MLRow.mk 0 1 8]
    (by
      intro r hr
      simp only [List.mem_cons, List.not_mem_nil, or_false] at hr
      rcases hr with rfl | rfl | rfl <;> norm_num)
    (by norm_num [detS, sPP, sTT, sPT, nQ, sumPP, sumTT, sumPT, sumP, sumT])
  refine ⟨h.1, ?_⟩
  rw [h.2 4 6]

/-- Concrete evaluation of the fit on the two-point dataset `(0,1)↦8`,
`(1,0)↦7`: the centered design is rank one, so the minimum-norm branch
yields coefficients (−1/2, 1/2) and intercept 15/2. -/
theorem olsFit_eval_two_points :
    olsFit [MLRow.mk 0 1 8, MLRow.mk 1 0 7] = (-(1 / 2 : ℚ), 1 / 2, 15 / 2) := by
  norm_num [olsFit, olsCoef, detS, trS, sPP, sTT, sPT, sPF, sTF, nQ,
    sumP, sumT, sumF, sumPP, sumTT, sumPT, sumPF, sumTF, Prod.ext_iff]

/-- **C9 counterexample.** The two rows `(0,1)↦8` and `(1,0)↦7` lie exactly
on the plane `f = 2p + 3t + 5` and are affinely independent (distinct), yet
the fit returns coefficients (−1/2, 1/2) and intercept 15/2 — not (2, 3, 5)
— and the prediction at the first evaluation point (feature minima (0, 0))
is 15/2, not `2·0 + 3·0 + 5 = 5`: two affinely independent rows are not
enough. -/
theorem c9_counterexample :
    (MLRow.mk 0 1 8).f = 2 * (MLRow.mk 0 1 8).p + 3 * (MLRow.mk 0 1 8).t + 5 ∧
    (MLRow.mk 1 0 7).f = 2 * (MLRow.mk 1 0 7).p + 3 * (MLRow.mk 1 0 7).t + 5 ∧
    MLRow.mk 0 1 8 ≠ MLRow.mk 1 0 7 ∧
    olsFit [MLRow.mk 0 1 8, MLRow.mk 1 0 7] ≠ (2, 3, 5) ∧
    predictFlow (olsFit [MLRow.mk 0 1 8, MLRow.mk 1 0 7]) 0 0 ≠
      2 * 0 + 3 * 0 + 5 := by
  refine ⟨by norm_num, by norm_num, by norm_num [MLRow.mk.injEq], ?_, ?_⟩
  · rw [olsFit_eval_two_points]
    norm_num [Prod.ext_iff]
  · rw [olsFit_eval_two_points, predictFlow]
    norm_num

/-- **C4.** The code has no insufficient-data guard: with all three columns
present and exactly one complete row, the forecast step fits and produces a
forecast instead of failing with an InsufficientData error, and with zero
complete rows the underlying solver raises an uninformative `ValueError`
that crashes the session instead of skipping the forecast. -/
theorem c4_no_insufficient_data_guard :
    (completeRows [⟨some 1, some 2, some 3⟩]).length = 1 ∧
    forecastStep true true true [⟨some 1, some 2, some 3⟩] =
      StepResult.produced (forecast30 [⟨1, 2, 3⟩]) ∧
    forecastStep true true true [] =
      StepResult.crashed "ValueError: 0 samples" :=
  ⟨rfl, rfl, rfl⟩

/-- **C5.** The guard on line 63 skips the forecast when `Pressure` or
`Temperature` is missing, but when only `Flow_Rate` is missing the guard
passes and `dropna` raises a `KeyError` that crashes the session — the
step is not skipped. -/
theorem c5_missing_flow_rate_crashes :
    forecastStep true true false [⟨some 1, some 2, some 3⟩] =
      StepResult.crashed "KeyError: Flow_Rate" ∧
    forecastStep false true true [⟨some 1, some 2, some 3⟩] =
      StepResult.skipped ∧
    forecastStep true false true [⟨some 1, some 2, some 3⟩] =
      StepResult.skipped :=
  ⟨rfl, rfl, rfl⟩

/-- Zipping `range n` with a map over `range n` enumerates the map. -/
theorem range_zip_map (n : Nat) (h : Nat → ℚ × ℚ) :
    (List.range n).zip ((List.range n).map h) =
      (List.range n).map (fun i => (i, h i)) := by
  nth_rewrite 1 [(List.map_id (List.range n)).symm]
  rw [List.zip_map']
  rfl

/-- `forecast30` written as one map over the 30 day indices. -/
theorem forecast30_eq_map (rows : List MLRow) :
    forecast30 rows = (List.range 30).map (fun i : Nat =>
      (i + 1, predictFlow (olsFit rows)
        (qMin (rows.map MLRow.p) +
          (qMax (rows.map MLRow.p) - qMin (rows.map MLRow.p)) * (i : ℚ) /
            ((30 : ℚ) - 1))
        (qMin (rows.map MLRow.t) +
          (qMax (rows.map MLRow.t) - qMin (rows.map MLRow.t)) * (i : ℚ) /
            ((30 : ℚ) - 1)))) := by
  simp only [forecast30, linspace]
  rw [List.zip_map', range_zip_map, List.map_map]
  rfl

/-- **C3.** Given at least two complete rows, the forecast step evaluates
the fitted least-squares model at 30 points, whose `Pressure` and
`Temperature` coordinates are the two independently generated 30-point
linspaces over the observed feature ranges paired positionally, and labels
the results with day indices 1..30. -/
theorem c3_forecast_structure (raw : List RawMLRow)
    (_h2 : 2 ≤ (completeRows raw).length) :
    (forecast30 (completeRows raw)).length = 30 ∧
    (∀ i : Nat, i < 30 →
      (forecast30 (completeRows raw))[i]? = some (i + 1,
        predictFlow (olsFit (completeRows raw))
          (qMin ((completeRows raw).map MLRow.p) +
            (qMax ((completeRows raw).map MLRow.p) -
              qMin ((completeRows raw).map MLRow.p)) * i / ((30 : ℚ) - 1))
          (qMin ((completeRows raw).map MLRow.t) +
            (qMax ((completeRows raw).map MLRow.t) -
              qMin ((completeRows raw).map MLRow.t)) * i / ((30 : ℚ) - 1)))) := by
  rw [forecast30_eq_map]
  refine ⟨by simp, ?_⟩
  intro i hi
  rw [List.getElem?_map, List.getElem?_range hi]
  rfl

/-- Closed witness for C3 at a two-row table, read off at day index 1. -/
theorem c3_forecast_structure_witness :
    (forecast30 (completeRows
      [⟨some 1, some 2, some 3⟩, ⟨some 4, some 5, some 6⟩])).length = 30 ∧
    (forecast30 (completeRows
        [⟨some 1, some 2, some 3⟩, ⟨some 4, some 5, some 6⟩]))[0]? =
      some (1, predictFlow (olsFit (completeRows
          [⟨some 1, some 2, some 3⟩, ⟨some 4, some 5, some 6⟩]))
        (qMin ((completeRows
            [⟨some 1, some 2, some 3⟩, ⟨some 4, some 5, some 6⟩]).map
              MLRow.p) +
          (qMax ((completeRows
              [⟨some 1, some 2, some 3⟩, ⟨some 4, some 5, some 6⟩]).map
                MLRow.p) -
            qMin ((completeRows
              [⟨some 1, some 2, some 3⟩, ⟨some 4, some 5, some 6⟩]).map
                MLRow.p)) * 0 / ((30 : ℚ) - 1))
        (qMin ((completeRows
            [⟨some 1, some 2, some 3⟩, ⟨some 4, some 5, some 6⟩]).map
              MLRow.t) +
          (qMax ((completeRows
              [⟨some 1, some 2, some 3⟩, ⟨some 4, some 5, some 6⟩]).map
                MLRow.t) -
            qMin ((completeRows
              [⟨some 1, some 2, some 3⟩, ⟨some 4, some 5, some 6⟩]).map
                MLRow.t)) * 0 / ((30 : ℚ) - 1))) := by
  have h := c3_forecast_structure
    [⟨some 1, some 2, some 3⟩, ⟨some 4, some 5, some 6⟩] (by decide)
  exact ⟨h.1, by simpa using h.2 0 (by decide)⟩

/-- **C7.** The date filter returns exactly the rows with
`start ≤ Timestamp ≤ end`, inclusive on both ends, and a single date is a
no-op: the table passes through unchanged. -/
theorem c7_date_filter (s e d : Nat) (rows : List RawReading) :
    (∀ r, r ∈ applyDateFilter (.pair s e) rows ↔
      r ∈ rows ∧ s ≤ r.ts ∧ r.ts ≤ e) ∧
    applyDateFilter (.single d) rows = rows := by
  refine ⟨fun r => ?_, rfl⟩
  simp [applyDateFilter, List.mem_filter]

/-- **C8.** The time-range filter is idempotent: filtering an
already-filtered table with the same interval returns the same table. -/
theorem c8_filter_idempotent (s e : Nat) (rows : List RawReading) :
    applyDateFilter (.pair s e) (applyDateFilter (.pair s e) rows) =
      applyDateFilter (.pair s e) rows := by
  simp [applyDateFilter, List.filter_filter]

end CrudeFlow
